import Mathlib

/-!
Verification of the custom Entity-Component-System (ECS) and fixed-timestep
game loop of the fps-3d repository.

The definitions below are shallow embeddings of:
  * the `World` entity registry and `ECS` facade
    (src/features/core/ecs/ecs.ts),
  * the dependency comparator scheduler (`ECS.sortSystems`),
  * the `GameLoop` class (src/features/core/loop/gameLoop.ts),
  * the `physicsSystem` update (src/features/core/ecs/systems/physicsSystem.ts).

JavaScript numbers are modelled as rationals (ℚ); component payloads are an
opaque type parameter `α` (the ECS never inspects component data).
-/

namespace FPS

/-- An entity: an id plus an open bag of named components.  The source uses a
string id from `nanoid()`; ids are modelled as naturals produced by a fresh
counter (see `ECSState.nextId`). -/
structure Entity (α : Type) where
  id : ℕ
  components : List (String × α)
deriving DecidableEq, Repr

/-- The `World` entity registry: the authoritative list of entities. -/
structure World (α : Type) where
  entities : List (Entity α)
deriving DecidableEq, Repr

namespace World

/-- `World.add`: `this.entities.push(entity)`. -/
def add {α : Type} (w : World α) (e : Entity α) : World α :=
  ⟨w.entities ++ [e]⟩

/-- `World.remove`: find the first entity with the same id and splice it out;
no-op when absent. -/
def remove {α : Type} (w : World α) (e : Entity α) : World α :=
  match w.entities.findIdx? (fun x => x.id == e.id) with
  | some i => ⟨w.entities.eraseIdx i⟩
  | none => w

/-- `World.update`: replace the stored entity with the same id; no-op when
absent. -/
def update {α : Type} (w : World α) (e : Entity α) : World α :=
  match w.entities.findIdx? (fun x => x.id == e.id) with
  | some i => ⟨w.entities.set i e⟩
  | none => w

/-- `World.query`: `this.entities.filter(queryFn)`. -/
def query {α : Type} (w : World α) (p : Entity α → Bool) : List (Entity α) :=
  w.entities.filter p

end World

/-- A registered system: its name, declared dependencies, and which of the
three optional lifecycle hooks (`init`/`update`/`cleanup`) it defines. -/
structure Sys where
  name : String
  deps : List String
  hasInit : Bool
  hasUpdate : Bool
  hasCleanup : Bool
deriving DecidableEq, Repr

/-- State of the `ECS` facade: one world, the sorted system list, the running
flag.  `nextId` models the fresh-id source.

Modelled from the spec: the id generator `nanoid()` is an external package
(not in the repository); per the spec, `createEntity` must "allocate a fresh
unique id", so it is modelled as a monotone counter. -/
structure ECSState (α : Type) where
  world : World α
  systems : List Sys
  isRunning : Bool
  nextId : ℕ
deriving DecidableEq, Repr

/-- The empty ECS created by `new ECS()`. -/
def ecsNew (α : Type) : ECSState α :=
  ⟨⟨[]⟩, [], false, 0⟩

/-- The caller argument of `createEntity`: a `Partial<Entity>`, i.e. an
optional `id` key plus the component bag.  Because `Entity` has an index
signature, a caller may supply an `id` entry of its own. -/
structure EntityInit (α : Type) where
  id : Option ℕ
  components : List (String × α)
deriving DecidableEq, Repr

/-- `ECS.createEntity`: `{ id: nanoid(), ...components }` — a fresh id merged
with the caller-supplied map, added to the world and returned.  The spread
comes after the `id:` field, so a caller-supplied `id` key overrides the
fresh id; `nanoid()` (the counter) is consumed either way. -/
def createEntity {α : Type} (s : ECSState α) (init : EntityInit α) :
    Entity α × ECSState α :=
  let e : Entity α := ⟨(init.id).getD s.nextId, init.components⟩
  (e, { s with world := s.world.add e, nextId := s.nextId + 1 })

/-- `ECS.removeEntity`: look up by id and remove from the world if found. -/
def removeEntity {α : Type} (s : ECSState α) (entityId : ℕ) : ECSState α :=
  match s.world.entities.find? (fun e => e.id == entityId) with
  | some e => { s with world := s.world.remove e }
  | none => s

/-- `ECS.getEntity`: linear lookup by id. -/
def getEntity {α : Type} (s : ECSState α) (entityId : ℕ) : Option (Entity α) :=
  s.world.entities.find? (fun e => e.id == entityId)

/-- Set the component stored under `name`, replacing wholesale if present
(models `entity[componentType] = {...componentData}`). -/
def setComp {α : Type} (cs : List (String × α)) (name : String) (data : α) :
    List (String × α) :=
  if cs.any (fun c => c.1 == name) then
    cs.map (fun c => if c.1 == name then (name, data) else c)
  else cs ++ [(name, data)]

/-- Delete the component stored under `name`
(models `delete entity[componentType]`). -/
def delComp {α : Type} (cs : List (String × α)) (name : String) :
    List (String × α) :=
  cs.filter (fun c => !(c.1 == name))

/-- `ECS.addComponent`: look up the entity; if found, set the named component
and write back through `World.update`; no-op otherwise. -/
def addComponent {α : Type} (s : ECSState α) (entityId : ℕ) (componentType : String)
    (componentData : α) : ECSState α :=
  match getEntity s entityId with
  | some e =>
      { s with world := s.world.update { e with components := setComp e.components componentType componentData } }
  | none => s

/-- `ECS.removeComponent`: look up the entity; if found and the named component
is present, delete it and write back; no-op otherwise.  (The source's guard
`entity[componentType]` is a truthiness test; the components the facade stores
are always object spreads, hence truthy, so it reduces to a presence test.) -/
def removeComponent {α : Type} (s : ECSState α) (entityId : ℕ) (componentType : String) :
    ECSState α :=
  match getEntity s entityId with
  | some e =>
      if e.components.any (fun c => c.1 == componentType) then
        { s with world := s.world.update { e with components := delComp e.components componentType } }
      else s
  | none => s

/-! ## System scheduler (`ECS.sortSystems`, `ECS.registerSystem`)

`sortSystems` builds a map from system name to its index in the current list
(`Map.set` in registration order, so a duplicated name keeps its last index)
and then calls `Array.prototype.sort` with a pairwise comparator.
`Array.prototype.sort` is modelled as a stable insertion sort — the behaviour
ECMAScript mandates for consistent comparators.  The comparator below is not
consistent on every input; there the result is engine-defined in JavaScript
and the insertion sort serves as the concrete model. -/

/-- Last index of a system with the given name, or 0 when absent: models
`systemIndices.get(name) || 0` where the map was filled by a forward
`forEach` with `Map.set` (later entries overwrite earlier ones). -/
def lastIdxO : List Sys → String → Option ℕ
  | [], _ => none
  | s :: rest, n =>
      match lastIdxO rest n with
      | some k => some (k + 1)
      | none => if s.name = n then some 0 else none

/-- `systemIndices.get(name) || 0` as an integer. -/
def lastIdx (l : List Sys) (n : String) : ℤ :=
  ((lastIdxO l n).getD 0 : ℕ)

/-- The comparator passed to `this.systems.sort`: if `b` depends on `a`,
`a` comes first (−1); if `a` depends on `b`, `b` comes first (1); otherwise
the difference of the recorded indices preserves the current order. -/
def sortCmp (l : List Sys) (a b : Sys) : ℤ :=
  if b.deps.contains a.name then -1
  else if a.deps.contains b.name then 1
  else lastIdx l a.name - lastIdx l b.name

/-- Insert `x` into `l` before the first element `y` with `lt x y`
(the insertion step of a stable insertion sort). -/
def insertCmp (lt : Sys → Sys → Bool) (x : Sys) : List Sys → List Sys
  | [] => [x]
  | y :: ys => if lt x y then x :: y :: ys else y :: insertCmp lt x ys

/-- Stable insertion sort by a strict comparison. -/
def insertionSort (lt : Sys → Sys → Bool) (l : List Sys) : List Sys :=
  l.foldl (fun acc x => insertCmp lt x acc) []

/-- `ECS.sortSystems`: sort the system list with `sortCmp` over the indices of
the current list. -/
def sortSystems (l : List Sys) : List Sys :=
  insertionSort (fun a b => sortCmp l a b < 0) l

/-- `ECS.registerSystem` restricted to its effect on the system list:
append, then re-run the dependency sort. -/
def registerSystem (l : List Sys) (s : Sys) : List Sys :=
  sortSystems (l ++ [s])

/-- Register a whole list of systems in order into an empty ECS. -/
def registerAll (ss : List Sys) : List Sys :=
  ss.foldl registerSystem []

/-- The order in which `ECS.update` invokes `update` hooks in one tick:
list order, restricted to systems that define the hook. -/
def updateOrder (l : List Sys) : List String :=
  (l.filter (fun s => s.hasUpdate)).map (fun s => s.name)

/-! ## ECS lifecycle (`ECS.init` / `ECS.update` / `ECS.shutdown`)

The lifecycle functions return the successor state together with the list of
lifecycle hook invocations they perform, in order. -/

/-- A lifecycle hook tag. -/
inductive Hook where
  | hinit
  | hupdate
  | hcleanup
deriving DecidableEq, Repr

/-- `ECS.init`: no-op if already running; otherwise set running and invoke
`init` on every registered system (that has one) in current sorted order. -/
def ecsInit {α : Type} (s : ECSState α) : ECSState α × List (String × Hook) :=
  if s.isRunning then (s, [])
  else ({ s with isRunning := true },
        (s.systems.filter (fun sys => sys.hasInit)).map (fun sys => (sys.name, Hook.hinit)))

/-- `ECS.update`: no-op if not running; otherwise invoke `update` on every
system in sorted order with the same delta and elapsed time. -/
def ecsUpdate {α : Type} (s : ECSState α) (_delta _elapsedTime : ℚ) :
    ECSState α × List (String × Hook) :=
  if !s.isRunning then (s, [])
  else (s, (s.systems.filter (fun sys => sys.hasUpdate)).map (fun sys => (sys.name, Hook.hupdate)))

/-- `ECS.shutdown`: no-op if not running; otherwise clear running and invoke
`cleanup` on every system. -/
def ecsShutdown {α : Type} (s : ECSState α) : ECSState α × List (String × Hook) :=
  if !s.isRunning then (s, [])
  else ({ s with isRunning := false },
        (s.systems.filter (fun sys => sys.hasCleanup)).map (fun sys => (sys.name, Hook.hcleanup)))

/-! ## Fixed-timestep game loop (`GameLoop`) -/

/-- The mutable state of a `GameLoop` (the `rafId` handle is host-side and
carries no simulation state). -/
structure LoopState where
  isRunning : Bool
  lastTime : ℚ
  accumulatedTime : ℚ
  elapsedTime : ℚ
  frameRate : ℚ
  timeStep : ℚ
  maxDeltaTime : ℚ
deriving DecidableEq, Repr

/-- `GameLoop` constructor options (`options?: { frameRate?; maxDeltaTime? }`). -/
structure LoopOptions where
  frameRate : Option ℚ
  maxDeltaTime : Option ℚ
deriving DecidableEq, Repr

/-- The `GameLoop` constructor.  `if (options?.frameRate)` and
`if (options?.maxDeltaTime)` are JavaScript truthiness tests: an absent field
or the value 0 leaves the default in place. -/
def mkGameLoop (opts : Option LoopOptions) : LoopState :=
  let base : LoopState :=
    { isRunning := false, lastTime := 0, accumulatedTime := 0, elapsedTime := 0
      frameRate := 60, timeStep := 1000 / 60, maxDeltaTime := 250 }
  let s1 :=
    match opts.bind (fun o => o.frameRate) with
    | some v => if v ≠ 0 then { base with frameRate := v, timeStep := 1000 / v } else base
    | none => base
  match opts.bind (fun o => o.maxDeltaTime) with
  | some v => if v ≠ 0 then { s1 with maxDeltaTime := v } else s1
  | none => s1

/-- Number of iterations of `while (accumulatedTime >= timeStep)
{ accumulatedTime -= timeStep }` for a positive `timeStep` (for non-positive
`timeStep` the source loop would not terminate; every constructed loop has
`timeStep = 1000 / frameRate > 0`).  `numTicks_spec` below proves this floor
satisfies the loop's defining recurrence. -/
def numTicks (acc ts : ℚ) : ℕ :=
  ⌊acc / ts⌋₊

/-- The body of `GameLoop.loop` after the frame delta has been computed:
clamp the delta, add it to the accumulator and (in seconds) to the elapsed
time, then dispatch one `(timeStep/1000, elapsedTime)` notification per whole
timestep accumulated.  Returns the new state and the dispatch list. -/
def loopStep (s : LoopState) (deltaTime : ℚ) : LoopState × List (ℚ × ℚ) :=
  if !s.isRunning then (s, [])
  else
    let d := if deltaTime > s.maxDeltaTime then s.maxDeltaTime else deltaTime
    let acc := s.accumulatedTime + d
    let elapsed := s.elapsedTime + d / 1000
    let n := numTicks acc s.timeStep
    ({ s with accumulatedTime := acc - n * s.timeStep, elapsedTime := elapsed },
     List.replicate n (s.timeStep / 1000, elapsed))

/-- `GameLoop.loop(currentTime)`: bail out if not running, compute the wall
clock delta from `lastTime`, store `lastTime`, and run the frame body. -/
def loopFrame (s : LoopState) (currentTime : ℚ) : LoopState × List (ℚ × ℚ) :=
  if !s.isRunning then (s, [])
  else loopStep { s with lastTime := currentTime } (currentTime - s.lastTime)

/-- Process a sequence of frame deliveries, each given by its wall-clock
delta, concatenating the dispatch logs in order. -/
def runDeltas (s : LoopState) : List ℚ → LoopState × List (ℚ × ℚ)
  | [] => (s, [])
  | d :: ds =>
    let r := loopStep s d
    let rest := runDeltas r.1 ds
    (rest.1, r.2 ++ rest.2)

/-- `GameLoop.start`: no-op when running; else set running and capture
`lastTime = performance.now()` (the `now` argument). -/
def gstart (s : LoopState) (now : ℚ) : LoopState :=
  if s.isRunning then s
  else { s with isRunning := true, lastTime := now }

/-- `GameLoop.stop`: no-op when not running; else clear the running flag
(and cancel the pending animation frame, a host-side effect). -/
def gstop (s : LoopState) : LoopState :=
  if !s.isRunning then s
  else { s with isRunning := false }

/-! ## Physics system (`physicsSystem.update`)

The update runs over the query result (entities with both `transform` and
`physics`).  Entities are mutated in place in the source; here the list is
threaded through each step. -/

/-- A 3-vector of rationals. -/
structure Vec3 where
  x : ℚ
  y : ℚ
  z : ℚ
deriving DecidableEq, Repr

/-- A physics entity as seen by `physicsSystem.update`: id, transform fields,
and the `physics` component. -/
structure PhysEnt where
  id : ℕ
  pos : Vec3
  rot : Vec3
  scale : Vec3
  vel : Vec3
  mass : ℚ
  collider : String
  static : Bool
deriving DecidableEq, Repr

/-- An axis-aligned collision box. -/
structure CollisionBox where
  min : Vec3
  max : Vec3
deriving DecidableEq, Repr

/-- `generateCollisionBox(position, size)`: centred in x/z, grounded in y. -/
def generateCollisionBox (position size : Vec3) : CollisionBox :=
  ⟨⟨position.x - size.x / 2, position.y, position.z - size.z / 2⟩,
   ⟨position.x + size.x / 2, position.y + size.y, position.z + size.z / 2⟩⟩

/-- The fixed default size `[1, 2, 1]` used at every call site. -/
def defaultBoxSize : Vec3 := ⟨1, 2, 1⟩

/-- `checkCollision(box1, box2)`: AABB overlap on all three axes. -/
def checkCollision (box1 box2 : CollisionBox) : Bool :=
  decide (box1.min.x ≤ box2.max.x ∧ box1.max.x ≥ box2.min.x ∧
          box1.min.y ≤ box2.max.y ∧ box1.max.y ≥ box2.min.y ∧
          box1.min.z ≤ box2.max.z ∧ box1.max.z ≥ box2.min.z)

/-- Step 1 of `physicsSystem.update` for one entity: skip static objects,
apply gravity (`velocity[1] -= 9.8 * delta`) and horizontal damping
(`velocity[0] *= 0.9`, `velocity[2] *= 0.9`). -/
def applyForces (d : ℚ) (e : PhysEnt) : PhysEnt :=
  if e.static then e
  else { e with vel := ⟨e.vel.x * (9 / 10), e.vel.y - (98 / 10) * d, e.vel.z * (9 / 10)⟩ }

/-- The inner `forEach` of step 2/3: for every other entity that is not `e`
itself and is static, test `checkCollision` and on a hit revert to the
previous position and zero the velocity (the collision box is not
regenerated).  Threads the (position, velocity) pair and the log of tested
pairs `(entity id, target id)`. -/
def resolveCollisions (e : PhysEnt) (box : CollisionBox) (prev : Vec3) :
    List PhysEnt → Vec3 × Vec3 → List (ℕ × ℕ) → (Vec3 × Vec3) × List (ℕ × ℕ)
  | [], pv, log => (pv, log)
  | other :: rest, pv, log =>
    if other.id == e.id || !other.static then
      resolveCollisions e box prev rest pv log
    else
      let log' := log ++ [(e.id, other.id)]
      if checkCollision box (generateCollisionBox other.pos defaultBoxSize) then
        resolveCollisions e box prev rest (prev, ⟨0, 0, 0⟩) log'
      else
        resolveCollisions e box prev rest pv log'

/-- Step 2 of `physicsSystem.update` for one non-static entity: remember the
previous position, integrate the position, clamp to the ground plane
(`position[1] < 0` zeroes `y` and `velocity[1]`), then run the collision
loop against the current entity list. -/
def integrateEntity (d : ℚ) (cur : List PhysEnt) (e : PhysEnt) :
    PhysEnt × List (ℕ × ℕ) :=
  let prev := e.pos
  let p1 : Vec3 := ⟨e.pos.x + e.vel.x * d, e.pos.y + e.vel.y * d, e.pos.z + e.vel.z * d⟩
  let pv0 : Vec3 × Vec3 :=
    if p1.y < 0 then (⟨p1.x, 0, p1.z⟩, ⟨e.vel.x, 0, e.vel.z⟩) else (p1, e.vel)
  let box := generateCollisionBox pv0.1 defaultBoxSize
  let r := resolveCollisions e box prev cur pv0 []
  ({ e with pos := r.1.1, vel := r.1.2 }, r.2)

/-- The body of the step-2 `forEach` at index `i` of the current list: static
objects are skipped untouched; a non-static entity is integrated and written
back at its index (`world.update`). -/
def integrateOne (d : ℚ) (cur : List PhysEnt) (i : ℕ) :
    List PhysEnt × List (ℕ × ℕ) :=
  match cur.get? i with
  | none => (cur, [])
  | some e =>
    if e.static then (cur, [])
    else
      let r := integrateEntity d cur e
      (cur.set i r.1, r.2)

/-- The step-2 pass over the indices of the entity list, threading the
in-place mutations and concatenating the collision-test logs. -/
def integratePass (d : ℚ) : List ℕ → List PhysEnt → List (ℕ × ℕ) →
    List PhysEnt × List (ℕ × ℕ)
  | [], cur, log => (cur, log)
  | i :: is, cur, log =>
    let r := integrateOne d cur i
    integratePass d is r.1 (log ++ r.2)

/-- `physicsSystem.update` on the physics query result: the force pass over
all entities, then the sequential integrate-and-collide pass.  Returns the
final entity list and the log of collision tests performed. -/
def physicsUpdate (es : List PhysEnt) (d : ℚ) : List PhysEnt × List (ℕ × ℕ) :=
  let s1 := es.map (applyForces d)
  integratePass d (List.range s1.length) s1 []

/-! ## Derived predicates and concrete instances used by the theorems -/

/-- The id-freshness invariant of the facade: every live id is below the
counter, and live ids are pairwise distinct. -/
def IdInv {α : Type} (s : ECSState α) : Prop :=
  (∀ e ∈ s.world.entities, e.id < s.nextId) ∧
  (s.world.entities.map (fun e => e.id)).Nodup

/-- Sum of the per-frame clamped deltas. -/
def clampSum (md : ℚ) (ds : List ℚ) : ℚ :=
  (ds.map (fun d => min d md)).sum

/-- The input system (`name: "input"`, no dependencies, all three hooks). -/
def inputSys : Sys := ⟨"input", [], true, true, true⟩

/-- The player movement system (`name: "playerMovement"`,
`dependencies: ["input"]`). -/
def playerMovementSys : Sys := ⟨"playerMovement", ["input"], true, true, true⟩

/-- The physics system (`name: "physics"`, `dependencies: ["playerMovement"]`). -/
def physicsSys : Sys := ⟨"physics", ["playerMovement"], true, true, true⟩

/-- Relation between the list entering the step-2 pass and the current list
mid-pass: same length, positionally identical ids and static flags, and
static entries never modified. -/
def PassInv (base cur : List PhysEnt) : Prop :=
  cur.length = base.length ∧
  ∀ k e, base.get? k = some e →
    ∃ f, cur.get? k = some f ∧ f.id = e.id ∧ f.static = e.static ∧
      (e.static = true → f = e)

/-! ## Entity id uniqueness (C6) -/

theorem createEntity_idInv {α : Type} (s : ECSState α) (c : EntityInit α)
    (hc : c.id = none) (h : IdInv s) : IdInv (createEntity s c).2 := by
  obtain ⟨hlt, hnd⟩ := h
  have hgd : (c.id).getD s.nextId = s.nextId := by rw [hc]; rfl
  constructor
  · intro e he
    simp only [createEntity, World.add, List.mem_append, List.mem_singleton] at he
    rcases he with he | rfl
    · exact Nat.lt_succ_of_lt (hlt e he)
    · simp only [hgd]
      exact Nat.lt_succ_self _
  · simp only [createEntity, World.add, List.map_append, List.map_cons,
      List.map_nil, hgd]
    rw [List.nodup_append]
    refine ⟨hnd, List.nodup_singleton _, ?_⟩
    intro a ha hb
    simp only [List.mem_singleton] at hb
    subst hb
    simp only [List.mem_map] at ha
    obtain ⟨e, he, hid⟩ := ha
    exact absurd hid (Nat.ne_of_lt (hlt e he))

theorem foldl_createEntity_idInv {α : Type} (calls : List (EntityInit α)) :
    ∀ (s : ECSState α), IdInv s → (∀ c ∈ calls, c.id = none) →
    IdInv (calls.foldl (fun t c => (createEntity t c).2) s) := by
  induction calls with
  | nil =>
    intro s h _
    exact h
  | cons c rest ih =>
    intro s h hno
    exact ih _ (createEntity_idInv s c (hno c (List.mem_cons_self c rest)) h)
      (fun x hx => hno x (List.mem_cons_of_mem c hx))

/-- C6 (amended): for every sequence of `createEntity` calls whose initial
component maps do not supply an `id` key — so the spread never overrides the
fresh id — no two entities in the `World` share an id. -/
theorem createEntity_ids_nodup {α : Type} (calls : List (EntityInit α))
    (hno : ∀ c ∈ calls, c.id = none) :
    (((calls.foldl (fun t c => (createEntity t c).2) (ecsNew α)).world.entities.map
        (fun e => e.id)).Nodup) := by
  have h : IdInv (ecsNew α) := by
    constructor
    · intro e he; simp [ecsNew] at he
    · simp [ecsNew]
  exact (foldl_createEntity_idInv calls (ecsNew α) h hno).2

/-- Counterexample to C6 as stated: `Partial<Entity>` admits an `id` key, and
the spread `{ id: nanoid(), ...components }` lets that key override the fresh
id, so two `createEntity` calls each supplying `id = 7` leave two live
entities with the same id in the World. -/
theorem createEntity_id_override_duplicates :
    ((([⟨some 7, []⟩, ⟨some 7, []⟩] : List (EntityInit ℕ)).foldl
        (fun t c => (createEntity t c).2) (ecsNew ℕ)).world.entities.map
          (fun e => e.id)) = [7, 7] ∧
    ¬ ((([⟨some 7, []⟩, ⟨some 7, []⟩] : List (EntityInit ℕ)).foldl
        (fun t c => (createEntity t c).2) (ecsNew ℕ)).world.entities.map
          (fun e => e.id)).Nodup := by
  refine ⟨by decide, by decide⟩

/-- Witness for the amended C6 at two concrete calls without an `id` key. -/
theorem createEntity_ids_nodup_witness :
    (∀ c ∈ ([⟨none, [("transform", 1)]⟩, ⟨none, []⟩] : List (EntityInit ℕ)),
      c.id = none) ∧
    ((([⟨none, [("transform", 1)]⟩, ⟨none, []⟩] : List (EntityInit ℕ)).foldl
        (fun t c => (createEntity t c).2) (ecsNew ℕ)).world.entities.map
          (fun e => e.id)).Nodup := by
  refine ⟨by decide, ?_⟩
  exact createEntity_ids_nodup
    ([⟨none, [("transform", 1)]⟩, ⟨none, []⟩] : List (EntityInit ℕ)) (by decide)

/-! ## Absent-id operations are no-ops (C7) -/

/-- C7: `removeEntity`, `addComponent`, `removeComponent` with an id absent
from the World, and `World.remove` / `World.update` with an entity whose id
is absent, leave the state exactly unchanged (and, being total functions,
never throw). -/
theorem absent_id_noop {α : Type} (s : ECSState α) (eid : ℕ) (cname : String)
    (cdata : α) (w : World α) (e : Entity α)
    (h1 : getEntity s eid = none)
    (h2 : ∀ x ∈ w.entities, x.id ≠ e.id) :
    removeEntity s eid = s ∧ addComponent s eid cname cdata = s ∧
    removeComponent s eid cname = s ∧
    World.remove w e = w ∧ World.update w e = w := by
  have hidx : w.entities.findIdx? (fun x => x.id == e.id) = none := by
    rw [List.findIdx?_eq_none_iff]
    intro x hx
    simpa using h2 x hx
  refine ⟨?_, ?_, ?_, ?_, ?_⟩
  · unfold removeEntity
    rw [show s.world.entities.find? (fun x => x.id == eid) = none from h1]
  · unfold addComponent
    rw [h1]
  · unfold removeComponent
    rw [h1]
  · unfold World.remove
    rw [hidx]
  · unfold World.update
    rw [hidx]

/-- Witness for C7 at a concrete state: one entity with id 0, looked up and
removed under the absent id 5. -/
theorem absent_id_noop_witness :
    (getEntity (⟨⟨[⟨0, [("transform", 7)]⟩]⟩, [], false, 1⟩ : ECSState ℕ) 5 = none) ∧
    removeEntity (⟨⟨[⟨0, [("transform", 7)]⟩]⟩, [], false, 1⟩ : ECSState ℕ) 5 =
      (⟨⟨[⟨0, [("transform", 7)]⟩]⟩, [], false, 1⟩ : ECSState ℕ) := by
  refine ⟨by decide, ?_⟩
  exact (absent_id_noop (⟨⟨[⟨0, [("transform", 7)]⟩]⟩, [], false, 1⟩ : ECSState ℕ) 5
    "physics" 3 ⟨[⟨0, [("transform", 7)]⟩]⟩ ⟨5, []⟩ (by decide) (by decide)).1

/-! ## Query soundness and completeness (C8) -/

/-- C8: `query` returns exactly the currently registered entities satisfying
the predicate, in insertion order (a sublist of the entity list), and reflects
mutations performed before the call — an added entity is immediately visible,
with no caching. -/
theorem query_pure_filter {α : Type} (w : World α) (p : Entity α → Bool) :
    World.query w p = w.entities.filter p ∧
    (∀ e, e ∈ World.query w p ↔ e ∈ w.entities ∧ p e = true) ∧
    (World.query w p).Sublist w.entities ∧
    (∀ e, World.query (World.add w e) p =
      World.query w p ++ if p e then [e] else []) := by
  refine ⟨rfl, ?_, ?_, ?_⟩
  · intro e
    exact List.mem_filter
  · exact List.filter_sublist _
  · intro e
    simp only [World.query, World.add, List.filter_append]
    congr 1
    by_cases hpe : p e <;> simp [hpe]

/-! ## System ordering (C1) -/

theorem lastIdxO_eq_none (l : List Sys) (n : String)
    (h : n ∉ l.map (fun s => s.name)) : lastIdxO l n = none := by
  induction l with
  | nil => rfl
  | cons s rest ih =>
    simp only [List.map_cons, List.mem_cons, not_or] at h
    obtain ⟨h1, h2⟩ := h
    have h1' : ¬ s.name = n := fun hc => h1 hc.symm
    unfold lastIdxO
    rw [ih h2]
    simp [h1']

theorem lastIdxO_get (l : List Sys) (hn : (l.map (fun s => s.name)).Nodup)
    (i : ℕ) (hi : i < l.length) :
    lastIdxO l ((l.get ⟨i, hi⟩).name) = some i := by
  induction l generalizing i with
  | nil => simp at hi
  | cons s rest ih =>
    simp only [List.map_cons, List.nodup_cons] at hn
    obtain ⟨h1, h2⟩ := hn
    cases i with
    | zero =>
      have hget : ((s :: rest).get ⟨0, hi⟩) = s := rfl
      unfold lastIdxO
      rw [hget, lastIdxO_eq_none rest s.name h1]
      simp
    | succ k =>
      have hk : k < rest.length := Nat.lt_of_succ_lt_succ hi
      unfold lastIdxO
      have hget : ((s :: rest).get ⟨k + 1, hi⟩) = rest.get ⟨k, hk⟩ := rfl
      rw [hget, ih h2 k hk]

/-- With pairwise distinct names, the recorded index of the element at
position `i` is `i`. -/
theorem lastIdx_get (l : List Sys) (hn : (l.map (fun s => s.name)).Nodup)
    (i : ℕ) (hi : i < l.length) :
    lastIdx l ((l.get ⟨i, hi⟩).name) = (i : ℤ) := by
  unfold lastIdx
  rw [lastIdxO_get l hn i hi]
  rfl

theorem insertCmp_all_false (lt : Sys → Sys → Bool) (x : Sys) (l : List Sys)
    (h : ∀ y ∈ l, lt x y = false) : insertCmp lt x l = l ++ [x] := by
  induction l with
  | nil => rfl
  | cons y ys ih =>
    unfold insertCmp
    rw [h y (List.mem_cons_self y ys)]
    simp only [Bool.false_eq_true, if_false, List.cons_append, List.cons.injEq,
      true_and]
    exact ih (fun z hz => h z (List.mem_cons_of_mem y hz))

/-- A list on which the comparison never demands a swap of an earlier and a
later element is a fixed point of the stable insertion sort. -/
theorem insertionSort_eq_self (lt : Sys → Sys → Bool) (l : List Sys)
    (h : l.Pairwise (fun y x => lt x y = false)) : insertionSort lt l = l := by
  induction l using List.reverseRecOn with
  | nil => rfl
  | append_singleton l x ih =>
    rw [List.pairwise_append] at h
    obtain ⟨hl, _, hcross⟩ := h
    unfold insertionSort
    rw [List.foldl_append]
    have hfold : l.foldl (fun acc x => insertCmp lt x acc) [] = l := ih hl
    simp only [List.foldl_cons, List.foldl_nil, hfold]
    exact insertCmp_all_false lt x l
      (fun y hy => hcross y hy x (List.mem_singleton_self x))

/-- When every system's dependencies occur only earlier in the list, the
comparator sort leaves the list unchanged. -/
theorem sortSystems_eq_self (l : List Sys)
    (hnames : (l.map (fun s => s.name)).Nodup)
    (hdeps : l.Pairwise (fun a b => a.deps.contains b.name = false)) :
    sortSystems l = l := by
  unfold sortSystems
  apply insertionSort_eq_self
  rw [List.pairwise_iff_get] at hdeps ⊢
  intro i j hij
  have hd := hdeps i j hij
  rw [decide_eq_false_iff_not]
  unfold sortCmp
  rw [if_neg (by rw [hd]; exact Bool.false_ne_true)]
  by_cases hc : (l.get j).deps.contains (l.get i).name
  · rw [if_pos hc]
    omega
  · rw [if_neg hc]
    rw [lastIdx_get l hnames j.1 j.2, lastIdx_get l hnames i.1 i.2]
    have : (i : ℕ) < (j : ℕ) := hij
    omega

/-- C1 (amended): if every registered system names as dependencies only
systems registered before it (and never itself), then after the whole
registration sequence the scheduler's order is the registration order, and
every system that declares a dependency on another is placed strictly after
it — so the dependency's `update` runs strictly earlier in every tick. -/
theorem registerAll_respects_dependencies (ss : List Sys)
    (hnames : (ss.map (fun s => s.name)).Nodup)
    (hdeps : ss.Pairwise (fun a b => a.deps.contains b.name = false))
    (hself : ∀ s ∈ ss, s.deps.contains s.name = false) :
    registerAll ss = ss ∧
    ∀ i j : ℕ, ∀ a b : Sys, (registerAll ss).get? i = some a →
      (registerAll ss).get? j = some b →
      b.deps.contains a.name = true → i < j := by
  have hfix : registerAll ss = ss := by
    induction ss using List.reverseRecOn with
    | nil => rfl
    | append_singleton l x ih =>
      have hnames' : (l.map (fun s => s.name)).Nodup := by
        rw [List.map_append] at hnames
        exact (List.nodup_append.mp hnames).1
      have hdeps' : l.Pairwise (fun a b => a.deps.contains b.name = false) :=
        (List.pairwise_append.mp hdeps).1
      have hself' : ∀ s ∈ l, s.deps.contains s.name = false :=
        fun s hs => hself s (List.mem_append_left _ hs)
      unfold registerAll
      rw [List.foldl_append]
      have hl : l.foldl registerSystem [] = l := ih hnames' hdeps' hself'
      simp only [List.foldl_cons, List.foldl_nil, hl]
      unfold registerSystem
      exact sortSystems_eq_self (l ++ [x]) hnames hdeps
  refine ⟨hfix, ?_⟩
  intro i j a b hga hgb hcontains
  rw [hfix] at hga hgb
  obtain ⟨hi, hae⟩ := List.get?_eq_some.mp hga
  obtain ⟨hj, hbe⟩ := List.get?_eq_some.mp hgb
  rcases lt_trichotomy i j with h | h | h
  · exact h
  · exfalso
    subst h
    have hab : a = b := by rw [← hae, ← hbe]
    subst hab
    have hs := hself a (hae ▸ ss.get_mem _ _)
    rw [hcontains] at hs
    · exact Bool.true_eq_false.mp hs
  · exfalso
    rw [List.pairwise_iff_get] at hdeps
    have hd := hdeps ⟨j, hj⟩ ⟨i, hi⟩ h
    rw [hae, hbe] at hd
    rw [hcontains] at hd
    exact Bool.true_eq_false.mp hd

/-- Counterexample to C1 as stated: registering the three-system chain in the
scrambled order physics, input, playerMovement makes the pairwise comparator
inconsistent (it demands physics < input < playerMovement < physics), and the
resulting order invokes playerMovement's `update` before input's even though
playerMovement declares a dependency on input. -/
theorem scheduler_misorders_scrambled_chain :
    updateOrder (registerAll [physicsSys, inputSys, playerMovementSys]) =
      ["playerMovement", "physics", "input"] ∧
    playerMovementSys.deps.contains inputSys.name = true ∧
    physicsSys.deps.contains playerMovementSys.name = true := by
  refine ⟨by decide, by decide, by decide⟩

/-- Witness for the amended C1: the chain registered in dependency order
input, playerMovement, physics keeps that order. -/
theorem registerAll_respects_dependencies_witness :
    (([inputSys, playerMovementSys, physicsSys].map (fun s => s.name)).Nodup) ∧
    registerAll [inputSys, playerMovementSys, physicsSys] =
      [inputSys, playerMovementSys, physicsSys] := by
  refine ⟨by decide, ?_⟩
  exact (registerAll_respects_dependencies [inputSys, playerMovementSys, physicsSys]
    (by decide) (by decide) (by decide)).1

/-! ## Game loop arithmetic (C2, C3, C4)

The while-loop of `GameLoop.loop` is embedded as the floor `numTicks`;
`numTicks_spec` shows this floor satisfies the loop's defining recurrence. -/

/-- The clamp `if (deltaTime > maxDeltaTime) deltaTime = maxDeltaTime`
computes a minimum. -/
theorem clamp_eq_min (a b : ℚ) : (if a > b then b else a) = min a b := by
  rcases le_or_lt a b with h | h
  · rw [if_neg (not_lt.mpr h), min_eq_left h]
  · rw [if_pos h, min_eq_right h.le]

/-- `numTicks` satisfies the recurrence of
`while (accumulatedTime >= timeStep) { accumulatedTime -= timeStep }`. -/
theorem numTicks_spec (acc ts : ℚ) (hts : 0 < ts) :
    (acc < ts → numTicks acc ts = 0) ∧
    (ts ≤ acc → numTicks acc ts = numTicks (acc - ts) ts + 1) := by
  constructor
  · intro h
    exact Nat.floor_eq_zero.mpr ((div_lt_one hts).mpr h)
  · intro h
    have h1 : (1 : ℚ) ≤ acc / ts := (one_le_div hts).mpr h
    have h2 : (acc - ts) / ts = acc / ts - 1 := by
      field_simp
    unfold numTicks
    rw [h2]
    have h3 : ⌊acc / ts - (1 : ℕ)⌋₊ = ⌊acc / ts⌋₊ - 1 := Nat.floor_sub_nat (acc / ts) 1
    have h4 : 1 ≤ ⌊acc / ts⌋₊ := Nat.le_floor (by exact_mod_cast h1)
    push_cast at h3
    rw [h3]
    omega

theorem numTicks_bounds (acc ts : ℚ) (hts : 0 < ts) (hacc : 0 ≤ acc) :
    0 ≤ acc - numTicks acc ts * ts ∧ acc - numTicks acc ts * ts < ts := by
  have hda : 0 ≤ acc / ts := div_nonneg hacc hts.le
  constructor
  · have h1 : (numTicks acc ts : ℚ) ≤ acc / ts := Nat.floor_le hda
    have h2 : (numTicks acc ts : ℚ) * ts ≤ acc / ts * ts :=
      mul_le_mul_of_nonneg_right h1 hts.le
    rw [div_mul_cancel₀ acc (ne_of_gt hts)] at h2
    linarith
  · have h1 : acc / ts < numTicks acc ts + 1 := Nat.lt_floor_add_one (acc / ts)
    have h2 : acc / ts * ts < ((numTicks acc ts : ℚ) + 1) * ts :=
      mul_lt_mul_of_pos_right h1 hts
    rw [div_mul_cancel₀ acc (ne_of_gt hts)] at h2
    linarith

/-- `loopStep` at a running state, with the clamp written as `min` and the
tick count as `numTicks`. -/
theorem loopStep_eq (s : LoopState) (dt : ℚ) (hrun : s.isRunning = true) :
    loopStep s dt =
      ({ s with
          accumulatedTime := s.accumulatedTime + min dt s.maxDeltaTime -
            (numTicks (s.accumulatedTime + min dt s.maxDeltaTime) s.timeStep) * s.timeStep,
          elapsedTime := s.elapsedTime + min dt s.maxDeltaTime / 1000 },
       List.replicate (numTicks (s.accumulatedTime + min dt s.maxDeltaTime) s.timeStep)
         (s.timeStep / 1000, s.elapsedTime + min dt s.maxDeltaTime / 1000)) := by
  simp only [loopStep, hrun, Bool.not_true, clamp_eq_min]
  simp

theorem runDeltas_cons (s : LoopState) (d : ℚ) (ds : List ℚ) :
    runDeltas s (d :: ds) =
      ((runDeltas (loopStep s d).1 ds).1,
       (loopStep s d).2 ++ (runDeltas (loopStep s d).1 ds).2) := rfl

/-- Full characterization of a run of frame deliveries from a steady state
(`0 ≤ accumulatedTime < timeStep`): configuration fields are untouched,
elapsed time advances by the clamped sum, and the accumulator equals the
clamped sum minus the dispatched ticks, staying in `[0, timeStep)`. -/
theorem runDeltas_spec (ds : List ℚ) (s : LoopState)
    (hrun : s.isRunning = true) (hts : 0 < s.timeStep) (hmd : 0 ≤ s.maxDeltaTime)
    (hds : ∀ d ∈ ds, 0 ≤ d)
    (hacc0 : 0 ≤ s.accumulatedTime) (hacc1 : s.accumulatedTime < s.timeStep) :
    (runDeltas s ds).1.isRunning = true ∧
    (runDeltas s ds).1.timeStep = s.timeStep ∧
    (runDeltas s ds).1.maxDeltaTime = s.maxDeltaTime ∧
    (runDeltas s ds).1.elapsedTime = s.elapsedTime + clampSum s.maxDeltaTime ds / 1000 ∧
    (runDeltas s ds).1.accumulatedTime =
      s.accumulatedTime + clampSum s.maxDeltaTime ds -
        ((runDeltas s ds).2.length : ℚ) * s.timeStep ∧
    0 ≤ (runDeltas s ds).1.accumulatedTime ∧
    (runDeltas s ds).1.accumulatedTime < s.timeStep := by
  induction ds generalizing s with
  | nil =>
    refine ⟨hrun, rfl, rfl, ?_, ?_, hacc0, hacc1⟩ <;> simp [runDeltas, clampSum]
  | cons d rest ih =>
    have hd0 : 0 ≤ d := (hds d (List.mem_cons_self d rest))
    have hmin0 : 0 ≤ min d s.maxDeltaTime := le_min hd0 hmd
    have hpre : 0 ≤ s.accumulatedTime + min d s.maxDeltaTime := by linarith
    obtain ⟨hb0, hb1⟩ :=
      numTicks_bounds (s.accumulatedTime + min d s.maxDeltaTime) s.timeStep hts hpre
    set s1 := (loopStep s d).1 with hs1
    have hstep := loopStep_eq s d hrun
    have hfields : s1.isRunning = true ∧ s1.timeStep = s.timeStep ∧
        s1.maxDeltaTime = s.maxDeltaTime ∧
        s1.elapsedTime = s.elapsedTime + min d s.maxDeltaTime / 1000 ∧
        s1.accumulatedTime = s.accumulatedTime + min d s.maxDeltaTime -
          (numTicks (s.accumulatedTime + min d s.maxDeltaTime) s.timeStep) * s.timeStep := by
      rw [hs1, hstep]
      exact ⟨hrun, rfl, rfl, rfl, rfl⟩
    obtain ⟨hr1, ht1, hm1, he1, ha1⟩ := hfields
    have ihs := ih s1 hr1 (ht1 ▸ hts) (hm1 ▸ hmd)
      (fun x hx => hds x (List.mem_cons_of_mem d hx))
      (by rw [ha1]; exact hb0) (by rw [ha1, ht1]; exact hb1)
    obtain ⟨ir, it, im, ie, ia, ia0, ia1⟩ := ihs
    have hlog : (loopStep s d).2.length =
        numTicks (s.accumulatedTime + min d s.maxDeltaTime) s.timeStep := by
      rw [hstep, List.length_replicate]
    have hcs : clampSum s.maxDeltaTime (d :: rest) =
        min d s.maxDeltaTime + clampSum s.maxDeltaTime rest := by
      simp [clampSum]
    refine ⟨?_, ?_, ?_, ?_, ?_, ?_, ?_⟩
    · rw [runDeltas_cons, ← hs1]; exact ir
    · rw [runDeltas_cons, ← hs1]; rw [it, ht1]
    · rw [runDeltas_cons, ← hs1]; rw [im, hm1]
    · rw [runDeltas_cons, ← hs1]
      rw [ie, he1, hm1, hcs]
      ring
    · rw [runDeltas_cons, ← hs1]
      simp only [List.length_append, hlog]
      rw [ia, ha1, hm1, ht1, hcs]
      push_cast
      ring
    · rw [runDeltas_cons, ← hs1]; exact ia0
    · rw [runDeltas_cons, ← hs1]; rw [← ht1]; exact ia1

/-- Uniqueness of the tick count from the accumulator bounds. -/
theorem tick_count_unique (a ts : ℚ) (hts : 0 < ts) (n1 n2 : ℕ)
    (h1 : 0 ≤ a - n1 * ts) (h2 : a - n1 * ts < ts)
    (h3 : 0 ≤ a - n2 * ts) (h4 : a - n2 * ts < ts) : n1 = n2 := by
  rcases lt_trichotomy n1 n2 with h | h | h
  · exfalso
    have hn : (n1 : ℚ) + 1 ≤ n2 := by exact_mod_cast Nat.succ_le_of_lt h
    nlinarith
  · exact h
  · exfalso
    have hn : (n2 : ℚ) + 1 ≤ n1 := by exact_mod_cast Nat.succ_le_of_lt h
    nlinarith

theorem clampSum_of_bounded (md : ℚ) (ds : List ℚ) (h : ∀ d ∈ ds, d ≤ md) :
    clampSum md ds = ds.sum := by
  unfold clampSum
  induction ds with
  | nil => simp
  | cons d rest ih =>
    simp only [List.map_cons, List.sum_cons]
    rw [min_eq_left (h d (List.mem_cons_self d rest)),
      ih (fun x hx => h x (List.mem_cons_of_mem d hx))]

/-- C2: when no single frame delivery exceeds `maxDeltaTime` (so the clamp is
inactive), the total number of dispatched ticks and the final `elapsedTime`
depend only on the sum of the delivered deltas, not on how that sum is
chunked into frames. -/
theorem chunking_independent (s : LoopState) (l1 l2 : List ℚ)
    (hrun : s.isRunning = true) (hts : 0 < s.timeStep) (hmd : 0 ≤ s.maxDeltaTime)
    (hacc0 : 0 ≤ s.accumulatedTime) (hacc1 : s.accumulatedTime < s.timeStep)
    (h1 : ∀ d ∈ l1, 0 ≤ d ∧ d ≤ s.maxDeltaTime)
    (h2 : ∀ d ∈ l2, 0 ≤ d ∧ d ≤ s.maxDeltaTime)
    (hsum : l1.sum = l2.sum) :
    (runDeltas s l1).2.length = (runDeltas s l2).2.length ∧
    (runDeltas s l1).1.elapsedTime = (runDeltas s l2).1.elapsedTime := by
  have hc1 : clampSum s.maxDeltaTime l1 = l1.sum :=
    clampSum_of_bounded _ _ (fun d hd => (h1 d hd).2)
  have hc2 : clampSum s.maxDeltaTime l2 = l2.sum :=
    clampSum_of_bounded _ _ (fun d hd => (h2 d hd).2)
  obtain ⟨_, _, _, he1, ha1, hb1, hb1'⟩ :=
    runDeltas_spec l1 s hrun hts hmd (fun d hd => (h1 d hd).1) hacc0 hacc1
  obtain ⟨_, _, _, he2, ha2, hb2, hb2'⟩ :=
    runDeltas_spec l2 s hrun hts hmd (fun d hd => (h2 d hd).1) hacc0 hacc1
  constructor
  · refine tick_count_unique (s.accumulatedTime + l1.sum) s.timeStep hts _ _ ?_ ?_ ?_ ?_
    · rw [← hc1, ← ha1]; exact hb1
    · rw [← hc1, ← ha1]; exact hb1'
    · rw [hsum, ← hc2, ← ha2]; exact hb2
    · rw [hsum, ← hc2, ← ha2]; exact hb2'
  · rw [he1, he2, hc1, hc2, hsum]

/-- Witness for C2: from a fresh running loop at 60 Hz, one 40 ms frame and
two 20 ms frames dispatch the same ticks and reach the same elapsed time. -/
theorem chunking_independent_witness :
    (runDeltas ⟨true, 0, 0, 0, 60, 1000 / 60, 250⟩ [40]).2.length =
      (runDeltas ⟨true, 0, 0, 0, 60, 1000 / 60, 250⟩ [20, 20]).2.length ∧
    (runDeltas ⟨true, 0, 0, 0, 60, 1000 / 60, 250⟩ [40]).1.elapsedTime =
      (runDeltas ⟨true, 0, 0, 0, 60, 1000 / 60, 250⟩ [20, 20]).1.elapsedTime :=
  chunking_independent ⟨true, 0, 0, 0, 60, 1000 / 60, 250⟩ [40] [20, 20]
    rfl (by norm_num) (by norm_num) (by norm_num) (by norm_num)
    (by intro d hd; simp at hd; simp [hd]; norm_num)
    (by intro d hd; simp at hd; simp [hd]; norm_num)
    (by norm_num)

/-- C3: a single frame delivery contributes at most `maxDeltaTime` to the
elapsed time; concretely, a 5000 ms frame at `maxDeltaTime = 250` and a
60 Hz timestep contributes exactly 250 ms to the accumulator/elapsed time and
dispatches at most `floor(250 / timeStep) = 15` ticks, never ≈300. -/
theorem single_frame_clamped (s : LoopState)
    (hrun : s.isRunning = true) (hts : s.timeStep = 1000 / 60)
    (hmd : s.maxDeltaTime = 250)
    (hacc0 : 0 ≤ s.accumulatedTime) (hacc1 : s.accumulatedTime < s.timeStep) :
    (∀ dt : ℚ, (loopStep s dt).1.elapsedTime ≤ s.elapsedTime + s.maxDeltaTime / 1000) ∧
    (loopStep s 5000).1.elapsedTime = s.elapsedTime + 250 / 1000 ∧
    (loopStep s 5000).1.accumulatedTime +
        ((loopStep s 5000).2.length : ℚ) * s.timeStep = s.accumulatedTime + 250 ∧
    (loopStep s 5000).2.length ≤ 15 := by
  have hts' : (0 : ℚ) < s.timeStep := by rw [hts]; norm_num
  have hmin : min (5000 : ℚ) s.maxDeltaTime = 250 := by
    rw [hmd]; norm_num
  have hstep := loopStep_eq s 5000 hrun
  have hlen : (loopStep s 5000).2.length =
      numTicks (s.accumulatedTime + 250) s.timeStep := by
    rw [hstep, List.length_replicate, hmin]
  refine ⟨?_, ?_, ?_, ?_⟩
  · intro dt
    rw [loopStep_eq s dt hrun]
    have : min dt s.maxDeltaTime ≤ s.maxDeltaTime := min_le_right _ _
    simp only
    linarith
  · rw [hstep]
    simp only
    rw [hmin]
  · rw [hstep]
    simp only
    rw [hmin, List.length_replicate]
    ring
  · rw [hlen]
    have hnn : 0 ≤ (s.accumulatedTime + 250) / s.timeStep :=
      div_nonneg (by linarith) hts'.le
    have h16 : (s.accumulatedTime + 250) / s.timeStep < 16 := by
      rw [div_lt_iff₀ hts', hts]
      rw [hts] at hacc1
      norm_num at hacc1 ⊢
      linarith
    have : numTicks (s.accumulatedTime + 250) s.timeStep < 16 :=
      (Nat.floor_lt hnn).mpr h16
    omega

/-- Witness for C3 at the fresh running 60 Hz loop. -/
theorem single_frame_clamped_witness :
    (loopStep ⟨true, 0, 0, 0, 60, 1000 / 60, 250⟩ 5000).1.elapsedTime = 0 + 250 / 1000 ∧
    (loopStep ⟨true, 0, 0, 0, 60, 1000 / 60, 250⟩ 5000).2.length ≤ 15 := by
  obtain ⟨_, h2, _, h4⟩ := single_frame_clamped ⟨true, 0, 0, 0, 60, 1000 / 60, 250⟩
    rfl rfl rfl (by norm_num) (by norm_num)
  exact ⟨h2, h4⟩

/-- C4: from a freshly started loop, after any sequence of frame deliveries
the elapsed time is the clamped wall-clock sum in seconds, the accumulator
equals `1000·elapsedTime − ticks·timeStep` and lies in `[0, timeStep)` (so
elapsed time runs ahead of the dispatched tick sum by exactly the carried
accumulator), and every tick dispatched within one further frame callback
receives the same `elapsedTime` value. -/
theorem accumulator_invariant (s : LoopState) (ds : List ℚ)
    (hrun : s.isRunning = true) (hts : 0 < s.timeStep) (hmd : 0 ≤ s.maxDeltaTime)
    (hacc : s.accumulatedTime = 0) (hel : s.elapsedTime = 0)
    (hds : ∀ d ∈ ds, 0 ≤ d) :
    (runDeltas s ds).1.elapsedTime = clampSum s.maxDeltaTime ds / 1000 ∧
    (runDeltas s ds).1.accumulatedTime =
      1000 * (runDeltas s ds).1.elapsedTime -
        ((runDeltas s ds).2.length : ℚ) * s.timeStep ∧
    0 ≤ (runDeltas s ds).1.accumulatedTime ∧
    (runDeltas s ds).1.accumulatedTime < s.timeStep ∧
    (∀ dt : ℚ, ∀ p ∈ (loopStep (runDeltas s ds).1 dt).2,
      p = (s.timeStep / 1000, (loopStep (runDeltas s ds).1 dt).1.elapsedTime)) := by
  obtain ⟨ir, it, im, ie, ia, ia0, ia1⟩ :=
    runDeltas_spec ds s hrun hts hmd hds (by rw [hacc]) (by rw [hacc]; exact hts)
  refine ⟨?_, ?_, ia0, ia1, ?_⟩
  · rw [ie, hel]; ring
  · rw [ia, ie, hacc, hel]; ring
  · intro dt p hp
    rw [loopStep_eq _ dt ir] at hp ⊢
    have := List.eq_of_mem_replicate hp
    rw [this]
    simp only
    rw [it]

/-- Witness for C4 after two frames on the fresh running 60 Hz loop. -/
theorem accumulator_invariant_witness :
    (runDeltas ⟨true, 0, 0, 0, 60, 1000 / 60, 250⟩ [10, 20]).1.elapsedTime =
      clampSum 250 [10, 20] / 1000 ∧
    0 ≤ (runDeltas ⟨true, 0, 0, 0, 60, 1000 / 60, 250⟩ [10, 20]).1.accumulatedTime := by
  obtain ⟨h1, _, h3, _, _⟩ := accumulator_invariant ⟨true, 0, 0, 0, 60, 1000 / 60, 250⟩
    [10, 20] rfl (by norm_num) (by norm_num) rfl rfl
    (by intro d hd; simp at hd; rcases hd with rfl | rfl <;> norm_num)
  exact ⟨h1, h3⟩

/-! ## Idempotent lifecycle (C5) -/

theorem count_hook_log_notmem (sel : Sys → Bool) (h : Hook) (l : List Sys)
    (n : String) (hn : n ∉ l.map (fun s => s.name)) :
    ((l.filter sel).map (fun x => (x.name, h))).count (n, h) = 0 := by
  induction l with
  | nil => simp
  | cons x rest ih =>
    simp only [List.map_cons, List.mem_cons, not_or] at hn
    obtain ⟨hx, hrest⟩ := hn
    by_cases hsel : sel x
    · rw [List.filter_cons_of_pos hsel, List.map_cons, List.count_cons, ih hrest]
      simp [hx]
      exact fun hc => hx hc.symm
    · rw [List.filter_cons_of_neg hsel]
      exact ih hrest

theorem count_hook_log (sel : Sys → Bool) (h : Hook) (l : List Sys)
    (hn : (l.map (fun s => s.name)).Nodup) (sys : Sys) (hmem : sys ∈ l) :
    ((l.filter sel).map (fun x => (x.name, h))).count (sys.name, h) =
      if sel sys then 1 else 0 := by
  induction l with
  | nil => simp at hmem
  | cons x rest ih =>
    simp only [List.map_cons, List.nodup_cons] at hn
    obtain ⟨hxr, hrest⟩ := hn
    rcases List.mem_cons.mp hmem with rfl | hmem'
    · by_cases hsel : sel sys
      · rw [List.filter_cons_of_pos hsel, List.map_cons, List.count_cons,
          count_hook_log_notmem sel h rest sys.name hxr]
        simp [hsel]
      · rw [List.filter_cons_of_neg hsel,
          count_hook_log_notmem sel h rest sys.name hxr]
        simp [hsel]
    · have hne : x.name ≠ sys.name := by
        intro hcontra
        exact hxr (hcontra ▸ List.mem_map_of_mem (fun s => s.name) hmem')
      by_cases hsel : sel x
      · rw [List.filter_cons_of_pos hsel, List.map_cons, List.count_cons,
          ih hrest hmem']
        simp [Ne.symm hne]
        exact hne
      · rw [List.filter_cons_of_neg hsel]
        exact ih hrest hmem'

/-- C5: the ECS lifecycle is idempotent — a second `init` while running
invokes nothing and leaves the state fixed (so each system's `init` runs
exactly once across the two calls); likewise a second `shutdown`; `update`
while not running invokes no system; and the GameLoop's `start`/`stop` follow
the same double-call no-op rule. -/
theorem lifecycle_idempotent {α : Type} (s : ECSState α) (g : LoopState)
    (d t t1 t2 : ℚ)
    (hn : (s.systems.map (fun sys => sys.name)).Nodup) :
    (s.isRunning = false →
      (ecsInit (ecsInit s).1).1 = (ecsInit s).1 ∧
      (ecsInit (ecsInit s).1).2 = [] ∧
      ∀ sys ∈ s.systems,
        (((ecsInit s).2 ++ (ecsInit (ecsInit s).1).2).count (sys.name, Hook.hinit)) =
          if sys.hasInit then 1 else 0) ∧
    (s.isRunning = true →
      (ecsShutdown (ecsShutdown s).1).1 = (ecsShutdown s).1 ∧
      (ecsShutdown (ecsShutdown s).1).2 = [] ∧
      ∀ sys ∈ s.systems,
        (((ecsShutdown s).2 ++ (ecsShutdown (ecsShutdown s).1).2).count (sys.name, Hook.hcleanup)) =
          if sys.hasCleanup then 1 else 0) ∧
    (s.isRunning = false → ecsUpdate s d t = (s, [])) ∧
    gstart (gstart g t1) t2 = gstart g t1 ∧
    gstop (gstop g) = gstop g := by
  refine ⟨?_, ?_, ?_, ?_, ?_⟩
  · intro hrun
    have h1 : ecsInit s =
        ({ s with isRunning := true },
         (s.systems.filter (fun sys => sys.hasInit)).map (fun sys => (sys.name, Hook.hinit))) := by
      simp [ecsInit, hrun]
    have h2 : (ecsInit (ecsInit s).1) = ((ecsInit s).1, []) := by
      rw [h1]; simp [ecsInit]
    refine ⟨by rw [h2], by rw [h2], ?_⟩
    intro sys hmem
    rw [h2, h1]
    simpa using count_hook_log (fun sys => sys.hasInit) Hook.hinit s.systems hn sys hmem
  · intro hrun
    have h1 : ecsShutdown s =
        ({ s with isRunning := false },
         (s.systems.filter (fun sys => sys.hasCleanup)).map (fun sys => (sys.name, Hook.hcleanup))) := by
      simp [ecsShutdown, hrun]
    have h2 : (ecsShutdown (ecsShutdown s).1) = ((ecsShutdown s).1, []) := by
      rw [h1]; simp [ecsShutdown]
    refine ⟨by rw [h2], by rw [h2], ?_⟩
    intro sys hmem
    rw [h2, h1]
    simpa using count_hook_log (fun sys => sys.hasCleanup) Hook.hcleanup s.systems hn sys hmem
  · intro hrun
    simp [ecsUpdate, hrun]
  · by_cases hg : g.isRunning
    · simp [gstart, hg]
    · simp [gstart, hg]
  · by_cases hg : g.isRunning
    · simp [gstop, hg]
    · simp [gstop, hg]

/-- Witness for C5 at a concrete ECS with one system and a stopped loop. -/
theorem lifecycle_idempotent_witness :
    (((⟨⟨[]⟩, [⟨"input", [], true, true, true⟩], false, 0⟩ : ECSState ℕ).systems.map
        (fun sys => sys.name)).Nodup) ∧
    (ecsUpdate (⟨⟨[]⟩, [⟨"input", [], true, true, true⟩], false, 0⟩ : ECSState ℕ) 1 2 =
      ((⟨⟨[]⟩, [⟨"input", [], true, true, true⟩], false, 0⟩ : ECSState ℕ), [])) := by
  refine ⟨by decide, ?_⟩
  exact (lifecycle_idempotent (⟨⟨[]⟩, [⟨"input", [], true, true, true⟩], false, 0⟩ : ECSState ℕ)
    ⟨false, 0, 0, 0, 60, 1000 / 60, 250⟩ 1 2 3 4 (by decide)).2.2.1 rfl

/-! ## Constructor defaults and zero options (C10) -/

/-- C10: a `frameRate` of 0 (or an absent field) yields the default 60 Hz with
`timeStep = 1000/60`; a `maxDeltaTime` of 0 (or absent) yields the default
clamp 250 ms; and no options value can configure a zero frame rate or a zero
clamp. -/
theorem mkGameLoop_zero_options_default :
    (∀ md : Option ℚ,
      (mkGameLoop (some ⟨some 0, md⟩)).frameRate = 60 ∧
      (mkGameLoop (some ⟨some 0, md⟩)).timeStep = 1000 / 60 ∧
      (mkGameLoop (some ⟨none, md⟩)).frameRate = 60 ∧
      (mkGameLoop (some ⟨none, md⟩)).timeStep = 1000 / 60) ∧
    (∀ fr : Option ℚ,
      (mkGameLoop (some ⟨fr, some 0⟩)).maxDeltaTime = 250 ∧
      (mkGameLoop (some ⟨fr, none⟩)).maxDeltaTime = 250) ∧
    ((mkGameLoop none).frameRate = 60 ∧ (mkGameLoop none).timeStep = 1000 / 60 ∧
      (mkGameLoop none).maxDeltaTime = 250) ∧
    (∀ opts : Option LoopOptions,
      (mkGameLoop opts).frameRate ≠ 0 ∧ (mkGameLoop opts).maxDeltaTime ≠ 0) := by
  refine ⟨?_, ?_, ?_, ?_⟩
  · intro md
    cases md with
    | none => refine ⟨by simp [mkGameLoop], by simp [mkGameLoop], by simp [mkGameLoop], by simp [mkGameLoop]⟩
    | some v =>
      by_cases hv : v ≠ 0 <;>
        refine ⟨by simp [mkGameLoop, hv], by simp [mkGameLoop, hv],
                by simp [mkGameLoop, hv], by simp [mkGameLoop, hv]⟩
  · intro fr
    cases fr with
    | none => exact ⟨by simp [mkGameLoop], by simp [mkGameLoop]⟩
    | some v =>
      by_cases hv : v ≠ 0 <;>
        exact ⟨by simp [mkGameLoop, hv], by simp [mkGameLoop, hv]⟩
  · exact ⟨by simp [mkGameLoop], by simp [mkGameLoop], by simp [mkGameLoop]⟩
  · intro opts
    rcases opts with _ | ⟨fr, md⟩
    · exact ⟨by simp [mkGameLoop], by simp [mkGameLoop]⟩
    · rcases fr with _ | v <;> rcases md with _ | u
      · exact ⟨by simp [mkGameLoop], by simp [mkGameLoop]⟩
      · by_cases hu : u ≠ 0 <;> exact ⟨by simp [mkGameLoop, hu], by simp [mkGameLoop, hu]⟩
      · by_cases hv : v ≠ 0 <;> exact ⟨by simp [mkGameLoop, hv], by simp [mkGameLoop, hv]⟩
      · by_cases hv : v ≠ 0 <;> by_cases hu : u ≠ 0 <;>
          exact ⟨by simp [mkGameLoop, hv, hu], by simp [mkGameLoop, hv, hu]⟩

/-! ## Static entities in the physics update (C9) -/

theorem applyForces_id (d : ℚ) (e : PhysEnt) : (applyForces d e).id = e.id := by
  unfold applyForces
  by_cases h : e.static = true <;> simp [h]

theorem applyForces_static (d : ℚ) (e : PhysEnt) :
    (applyForces d e).static = e.static := by
  unfold applyForces
  by_cases h : e.static = true <;> simp [h]

theorem applyForces_of_static (d : ℚ) (e : PhysEnt) (h : e.static = true) :
    applyForces d e = e := by
  unfold applyForces
  simp [h]

theorem resolveCollisions_log_mono (e : PhysEnt) (box : CollisionBox) (prev : Vec3)
    (rest : List PhysEnt) (pv : Vec3 × Vec3) (log : List (ℕ × ℕ)) (pr : ℕ × ℕ)
    (h : pr ∈ log) : pr ∈ (resolveCollisions e box prev rest pv log).2 := by
  induction rest generalizing pv log with
  | nil => exact h
  | cons other others ih =>
    unfold resolveCollisions
    by_cases hskip : (other.id == e.id || !other.static) = true
    · rw [if_pos hskip]
      exact ih pv log h
    · rw [if_neg hskip]
      by_cases hcol : checkCollision box (generateCollisionBox other.pos defaultBoxSize) = true
      · rw [if_pos hcol]
        exact ih _ _ (List.mem_append_left _ h)
      · rw [if_neg hcol]
        exact ih _ _ (List.mem_append_left _ h)

theorem resolveCollisions_tested (e : PhysEnt) (box : CollisionBox) (prev : Vec3)
    (rest : List PhysEnt) (pv : Vec3 × Vec3) (log : List (ℕ × ℕ)) (o : PhysEnt)
    (hmem : o ∈ rest) (hstatic : o.static = true) (hne : (o.id == e.id) = false) :
    (e.id, o.id) ∈ (resolveCollisions e box prev rest pv log).2 := by
  induction rest generalizing pv log with
  | nil => simp at hmem
  | cons other others ih =>
    unfold resolveCollisions
    rcases List.mem_cons.mp hmem with rfl | hmem'
    · have hskip : (o.id == e.id || !o.static) = false := by
        rw [hne, hstatic]
        rfl
      rw [if_neg (by rw [hskip]; exact Bool.false_ne_true)]
      by_cases hcol : checkCollision box (generateCollisionBox o.pos defaultBoxSize) = true
      · rw [if_pos hcol]
        exact resolveCollisions_log_mono e box prev others _ _ _
          (List.mem_append_right _ (List.mem_singleton_self _))
      · rw [if_neg hcol]
        exact resolveCollisions_log_mono e box prev others _ _ _
          (List.mem_append_right _ (List.mem_singleton_self _))
    · by_cases hskip : (other.id == e.id || !other.static) = true
      · rw [if_pos hskip]
        exact ih _ _ hmem'
      · rw [if_neg hskip]
        by_cases hcol : checkCollision box (generateCollisionBox other.pos defaultBoxSize) = true
        · rw [if_pos hcol]
          exact ih _ _ hmem'
        · rw [if_neg hcol]
          exact ih _ _ hmem'

theorem integrateEntity_tested (d : ℚ) (cur : List PhysEnt) (e o : PhysEnt)
    (hmem : o ∈ cur) (hstatic : o.static = true) (hne : (o.id == e.id) = false) :
    (e.id, o.id) ∈ (integrateEntity d cur e).2 := by
  unfold integrateEntity
  exact resolveCollisions_tested e _ _ cur _ [] o hmem hstatic hne

theorem integrateOne_of_get (d : ℚ) (cur : List PhysEnt) (i : ℕ) (f : PhysEnt)
    (h : cur.get? i = some f) (hst : f.static = false) :
    integrateOne d cur i =
      (cur.set i (integrateEntity d cur f).1, (integrateEntity d cur f).2) := by
  unfold integrateOne
  rw [h]
  simp [hst]

theorem integrateOne_passInv (d : ℚ) (base cur : List PhysEnt) (i : ℕ)
    (h : PassInv base cur) : PassInv base (integrateOne d cur i).1 := by
  obtain ⟨hlen, hpt⟩ := h
  match hc : cur.get? i with
  | none =>
    have heq : integrateOne d cur i = (cur, []) := by
      unfold integrateOne
      rw [hc]
    rw [heq]
    exact ⟨hlen, hpt⟩
  | some f =>
    by_cases hst : f.static = true
    · have heq : integrateOne d cur i = (cur, []) := by
        unfold integrateOne
        rw [hc]
        simp [hst]
      rw [heq]
      exact ⟨hlen, hpt⟩
    · have hstf : f.static = false := by
        cases hfs : f.static
        · rfl
        · exact absurd hfs hst
      rw [integrateOne_of_get d cur i f hc hstf]
      have hEid : (integrateEntity d cur f).1.id = f.id := rfl
      have hEst : (integrateEntity d cur f).1.static = f.static := rfl
      refine ⟨by rw [List.length_set]; exact hlen, ?_⟩
      intro k e0 hk
      obtain ⟨g, hg, hgid, hgst, hgeq⟩ := hpt k e0 hk
      by_cases hik : i = k
      · subst hik
        have hgf : g = f := Option.some.inj (hg.symm.trans hc)
        have hlt : i < cur.length := (List.get?_eq_some.mp hg).1
        refine ⟨(integrateEntity d cur f).1, ?_, ?_, ?_, ?_⟩
        · rw [List.get?_eq_getElem?, List.getElem?_set_eq_of_lt _ hlt]
        · rw [hEid, ← hgid, hgf]
        · rw [hEst, ← hgst, hgf]
        · intro he0
          exfalso
          rw [he0] at hgst
          rw [hgf] at hgst
          exact hst hgst
      · refine ⟨g, ?_, hgid, hgst, hgeq⟩
        rw [List.get?_eq_getElem?, List.getElem?_set_ne hik, ← List.get?_eq_getElem?]
        exact hg

theorem integratePass_log_mono (d : ℚ) (idxs : List ℕ) (cur : List PhysEnt)
    (log : List (ℕ × ℕ)) (pr : ℕ × ℕ) (h : pr ∈ log) :
    pr ∈ (integratePass d idxs cur log).2 := by
  induction idxs generalizing cur log with
  | nil => exact h
  | cons i is ih =>
    unfold integratePass
    exact ih _ _ (List.mem_append_left _ h)

theorem integratePass_passInv (d : ℚ) (idxs : List ℕ) (base cur : List PhysEnt)
    (log : List (ℕ × ℕ)) (h : PassInv base cur) :
    PassInv base (integratePass d idxs cur log).1 := by
  induction idxs generalizing cur log with
  | nil => exact h
  | cons i is ih =>
    unfold integratePass
    exact ih _ _ (integrateOne_passInv d base cur i h)

theorem integratePass_tested (d : ℚ) (idxs : List ℕ) (base : List PhysEnt)
    (i j : ℕ) (e0 o : PhysEnt)
    (hbe : base.get? i = some e0) (hst : e0.static = false)
    (hbo : base.get? j = some o) (host : o.static = true) (hid : o.id ≠ e0.id) :
    ∀ (cur : List PhysEnt) (log : List (ℕ × ℕ)), PassInv base cur → i ∈ idxs →
      (e0.id, o.id) ∈ (integratePass d idxs cur log).2 := by
  induction idxs with
  | nil => intro cur log _ hmem; simp at hmem
  | cons k is ih =>
    intro cur log hinv hmem
    unfold integratePass
    rcases List.mem_cons.mp hmem with rfl | htail
    · obtain ⟨f, hf, hfid, hfst, _⟩ := hinv.2 i e0 hbe
      obtain ⟨g, hg, _, _, hgeq⟩ := hinv.2 j o hbo
      have hgo : g = o := hgeq host
      have hfstf : f.static = false := by rw [hfst]; exact hst
      rw [integrateOne_of_get d cur i f hf hfstf]
      apply integratePass_log_mono
      apply List.mem_append_right
      have homem : o ∈ cur := by
        have hm := List.get?_mem hg
        rw [hgo] at hm
        exact hm
      have hneq : (o.id == f.id) = false := by
        rw [beq_eq_false_iff_ne, hfid]
        exact hid
      have hT := integrateEntity_tested d cur f o homem host hneq
      rw [hfid] at hT
      exact hT
    · exact ih _ _ (integrateOne_passInv d base cur k hinv) htail

/-- C9: in every physics tick, an entity with `physics.static = true` is left
with its `transform.position` and `physics.velocity` (indeed its whole
record) unchanged, while it is still tested as a collision target against
every non-static entity with a different id. -/
theorem physics_static_entities (es : List PhysEnt) (d : ℚ) (i j : ℕ)
    (e o : PhysEnt) (hie : es.get? i = some e) (hjo : es.get? j = some o) :
    (e.static = true → (physicsUpdate es d).1.get? i = some e) ∧
    (e.static = false → o.static = true → o.id ≠ e.id →
      (e.id, o.id) ∈ (physicsUpdate es d).2) := by
  have hinv0 : PassInv (es.map (applyForces d)) (es.map (applyForces d)) :=
    ⟨rfl, fun k e0 hk => ⟨e0, hk, rfl, rfl, fun _ => rfl⟩⟩
  constructor
  · intro hst
    have hbase : (es.map (applyForces d)).get? i = some e := by
      rw [List.get?_map, hie]
      simp [applyForces_of_static d e hst]
    have hinv := integratePass_passInv d (List.range (es.map (applyForces d)).length)
      (es.map (applyForces d)) (es.map (applyForces d)) [] hinv0
    obtain ⟨f, hf, _, _, hfeq⟩ := hinv.2 i e hbase
    rw [hfeq hst] at hf
    exact hf
  · intro hst host hid
    have hbase : (es.map (applyForces d)).get? i = some (applyForces d e) := by
      rw [List.get?_map, hie]
      rfl
    have hbaso : (es.map (applyForces d)).get? j = some o := by
      rw [List.get?_map, hjo]
      simp [applyForces_of_static d o host]
    have hi : i < (es.map (applyForces d)).length := (List.get?_eq_some.mp hbase).1
    have hmem : i ∈ List.range (es.map (applyForces d)).length := List.mem_range.mpr hi
    have hfst : (applyForces d e).static = false := by
      rw [applyForces_static]
      exact hst
    have hT := integratePass_tested d (List.range (es.map (applyForces d)).length)
      (es.map (applyForces d)) i j (applyForces d e) o hbase hfst hbaso host
      (by rw [applyForces_id]; exact hid)
      (es.map (applyForces d)) [] hinv0 hmem
    rw [applyForces_id] at hT
    exact hT

/-- Witness for C9: a falling box at id 0, a static floor-like box at id 1;
the static one is returned unchanged and appears in the test log. -/
theorem physics_static_entities_witness :
    ((physicsUpdate [⟨0, ⟨0, 1, 0⟩, ⟨0, 0, 0⟩, ⟨1, 1, 1⟩, ⟨0, 0, 0⟩, 1, "box", false⟩,
        ⟨1, ⟨0, 0, 0⟩, ⟨0, 0, 0⟩, ⟨1, 1, 1⟩, ⟨0, 0, 0⟩, 0, "box", true⟩] 1).1.get? 1 =
      some ⟨1, ⟨0, 0, 0⟩, ⟨0, 0, 0⟩, ⟨1, 1, 1⟩, ⟨0, 0, 0⟩, 0, "box", true⟩) ∧
    (((0 : ℕ), (1 : ℕ)) ∈
      (physicsUpdate [⟨0, ⟨0, 1, 0⟩, ⟨0, 0, 0⟩, ⟨1, 1, 1⟩, ⟨0, 0, 0⟩, 1, "box", false⟩,
        ⟨1, ⟨0, 0, 0⟩, ⟨0, 0, 0⟩, ⟨1, 1, 1⟩, ⟨0, 0, 0⟩, 0, "box", true⟩] 1).2) := by
  constructor
  · exact (physics_static_entities
      [⟨0, ⟨0, 1, 0⟩, ⟨0, 0, 0⟩, ⟨1, 1, 1⟩, ⟨0, 0, 0⟩, 1, "box", false⟩,
       ⟨1, ⟨0, 0, 0⟩, ⟨0, 0, 0⟩, ⟨1, 1, 1⟩, ⟨0, 0, 0⟩, 0, "box", true⟩] 1 1 0
      ⟨1, ⟨0, 0, 0⟩, ⟨0, 0, 0⟩, ⟨1, 1, 1⟩, ⟨0, 0, 0⟩, 0, "box", true⟩
      ⟨0, ⟨0, 1, 0⟩, ⟨0, 0, 0⟩, ⟨1, 1, 1⟩, ⟨0, 0, 0⟩, 1, "box", false⟩
      (by decide) (by decide)).1 rfl
  · exact (physics_static_entities
      [⟨0, ⟨0, 1, 0⟩, ⟨0, 0, 0⟩, ⟨1, 1, 1⟩, ⟨0, 0, 0⟩, 1, "box", false⟩,
       ⟨1, ⟨0, 0, 0⟩, ⟨0, 0, 0⟩, ⟨1, 1, 1⟩, ⟨0, 0, 0⟩, 0, "box", true⟩] 1 0 1
      ⟨0, ⟨0, 1, 0⟩, ⟨0, 0, 0⟩, ⟨1, 1, 1⟩, ⟨0, 0, 0⟩, 1, "box", false⟩
      ⟨1, ⟨0, 0, 0⟩, ⟨0, 0, 0⟩, ⟨1, 1, 1⟩, ⟨0, 0, 0⟩, 0, "box", true⟩
      (by decide) (by decide)).2 rfl rfl (by decide)

end FPS
